import Mathlib

/-!
Shallow embedding of the data-synchronization core of a Git-backed CMS:
the Gitea provider backend (`src/lib/services/backends/gitea.js`) and the
session/auth manager (`src/lib/services/user/auth.js`).

Network calls are modelled by oracles (functions supplied as parameters that
return `Except`-wrapped responses); JavaScript exceptions are modelled by
`Except` error values; Svelte stores are threaded explicitly as state.
Strings and byte data are modelled with Lean `String` / `List Nat`.
-/

namespace Sveltia

/-- A JavaScript number as stored in the `dataLoadedProgress` store: either a
real number (here always a natural percentage) or `NaN`, which arises from the
division `0 / 0` when the path list is empty. -/
inductive JsNum where
  | nan : JsNum
  | num : Nat → JsNum
deriving DecidableEq, Repr

/-- Ordering on published progress values: only actual numbers compare. -/
def JsNum.le : JsNum → JsNum → Prop
  | JsNum.num a, JsNum.num b => a ≤ b
  | _, _ => False

instance : DecidableRel JsNum.le := fun a b => by
  cases a <;> cases b <;> simp [JsNum.le] <;> infer_instance

/-- `ceil (a / b)` on naturals, the number of batches of size `b` covering `a`
items. -/
def ceilDiv (a b : Nat) : Nat := (a + b - 1) / b

/-- `Math.ceil((completed / total) * 100)` as computed in `fetchFileContents`.
When `total = 0` the JavaScript expression is `0 / 0 * 100 = NaN`. -/
def ceilPct (completed total : Nat) : JsNum :=
  if total = 0 then JsNum.nan else JsNum.num ((completed * 100 + (total - 1)) / total)

/-- An element of the file list handed to `fetchFileContents`
(`BaseFileListItem`): `type` is `'asset'` for binary assets and absent or
another tag for entry files. -/
structure FFile where
  type : Option String
  path : String
  sha : String
  size : Option Nat
deriving DecidableEq, Repr

/-- One element of the Gitea `file-contents` bulk response
(`PartialContentsListItem`): `content` is the base64 text (possibly absent),
`encoding` its tag. A `none` item models a `null` list element. -/
structure ContentsItem where
  content : Option (List Char)
  encoding : Option String
deriving DecidableEq, Repr

/-- Everything observable about one run of `fetchFileContents`: how many bulk
`file-contents` POST requests were issued, the progress values written to the
`dataLoadedProgress` store inside the batch loop (in order), the store's value
when the function exits (`none` = `undefined`, not in progress), and the
accumulated raw results or the propagated exception. -/
structure FFCResult where
  batchRequests : Nat
  published : List JsNum
  finalStore : Option JsNum
  outcome : Except Unit (List (Option ContentsItem))
deriving Repr

/-- The batch loop of `fetchFileContents`: repeatedly `splice` up to `perPage`
paths off the front, issue one bulk request, accumulate the results, publish
`ceil((total - remaining) / total * 100)`, and stop when no paths remain.
The loop body runs at least once even when the path list is empty.
`fuel` bounds the recursion; every theorem supplies enough fuel
(with `perPage ≥ 1` the loop runs at most `length + 1` times). -/
def ffcLoop (fetchBatch : List String → Except Unit (List (Option ContentsItem)))
    (perPage total : Nat) :
    Nat → List String → List (Option ContentsItem) → Nat → List JsNum → JsNum → FFCResult
  | 0, _, _acc, reqs, pub, store =>
    { batchRequests := reqs, published := pub, finalStore := some store,
      outcome := Except.error () }
  | fuel + 1, paths, acc, reqs, pub, store =>
    match fetchBatch (paths.take perPage) with
    | Except.error e =>
        { batchRequests := reqs + 1, published := pub, finalStore := some store,
          outcome := Except.error e }
    | Except.ok items =>
        if (paths.drop perPage).isEmpty then
          { batchRequests := reqs + 1,
            published := pub ++ [ceilPct (total - (paths.drop perPage).length) total],
            finalStore := some (ceilPct (total - (paths.drop perPage).length) total),
            outcome := Except.ok (acc ++ items) }
        else
          ffcLoop fetchBatch perPage total fuel (paths.drop perPage) (acc ++ items) (reqs + 1)
            (pub ++ [ceilPct (total - (paths.drop perPage).length) total])
            (ceilPct (total - (paths.drop perPage).length) total)

/-- The `allPaths` computed by `fetchFileContents`: paths of the files whose
`type` is not `'asset'`. -/
def nonAssetPaths (fetchingFiles : List FFile) : List String :=
  (fetchingFiles.filter (fun f => f.type ≠ some "asset")).map (fun f => f.path)

/-- The tail of `fetchFileContents`: on normal completion of the loop, reset
the `dataLoadedProgress` store to `undefined`; a propagated exception leaves
the store as the loop left it (the source has no `try`/`finally`). -/
def ffcFinish (r : FFCResult) : FFCResult :=
  match r.outcome with
  | Except.ok _ => { r with finalStore := none }
  | Except.error _ => r

/-- `fetchFileContents` from `gitea.js`: filter out assets, set the progress
store to `0`, read the per-request batch limit from `/settings/api`
(defaulting to 30 when `default_paging_num` is absent), run the batch loop,
and on normal completion reset the store to `undefined`. The settings
request and each batch request are oracles that may throw. -/
def fetchFileContents (settingsResult : Except Unit (Option Nat))
    (fetchBatch : List String → Except Unit (List (Option ContentsItem)))
    (fetchingFiles : List FFile) : FFCResult :=
  match settingsResult with
  | Except.error e =>
      { batchRequests := 0, published := [], finalStore := some (JsNum.num 0),
        outcome := Except.error e }
  | Except.ok settings =>
      ffcFinish (ffcLoop fetchBatch (settings.getD 30) (nonAssetPaths fetchingFiles).length
        ((nonAssetPaths fetchingFiles).length + 1) (nonAssetPaths fetchingFiles) [] 0 []
        (JsNum.num 0))

theorem ceilDiv_le_one {k B : Nat} (hB : 1 ≤ B) (hk : k ≤ B) : ceilDiv k B ≤ 1 := by
  have h := (Nat.div_lt_iff_lt_mul (by omega : 0 < B)).2 (by omega : k + B - 1 < 2 * B)
  unfold ceilDiv
  omega

theorem one_le_ceilDiv {k B : Nat} (hB : 1 ≤ B) (hk : 1 ≤ k) : 1 ≤ ceilDiv k B := by
  have h := (Nat.le_div_iff_mul_le (by omega : 0 < B)).2 (by omega : 1 * B ≤ k + B - 1)
  unfold ceilDiv
  omega

theorem ceilDiv_sub {k B : Nat} (hB : 1 ≤ B) (h : B < k) :
    ceilDiv k B = ceilDiv (k - B) B + 1 := by
  unfold ceilDiv
  have h1 : k + B - 1 = (k - B + B - 1) + B := by omega
  rw [h1, Nat.add_div_right _ (by omega)]

theorem ceilPct_mono {a b M : Nat} (hM : 1 ≤ M) (h : a ≤ b) :
    JsNum.le (ceilPct a M) (ceilPct b M) := by
  unfold ceilPct
  rw [if_neg (by omega), if_neg (by omega)]
  simp only [JsNum.le]
  exact Nat.div_le_div_right (by omega)

theorem ceilPct_self {M : Nat} (hM : 1 ≤ M) : ceilPct M M = JsNum.num 100 := by
  unfold ceilPct
  rw [if_neg (by omega)]
  congr 1
  rw [Nat.mul_add_div (by omega), Nat.div_eq_of_lt (by omega)]

theorem JsNum.le_trans {a b c : JsNum} (h1 : JsNum.le a b) (h2 : JsNum.le b c) :
    JsNum.le a c := by
  cases a <;> cases b <;> cases c <;> simp_all [JsNum.le]
  omega

/-- The batch loop issues `⌈remaining / perPage⌉` requests when every batch
succeeds — except that it always runs at least once, even on an empty path
list (the JavaScript loop is do-while shaped). -/
theorem ffcLoop_requests (g : List String → List (Option ContentsItem)) (B M : Nat)
    (hB : 1 ≤ B) :
    ∀ fuel (paths : List String) acc reqs pub store, paths.length < fuel →
    (ffcLoop (fun l => Except.ok (g l)) B M fuel paths acc reqs pub store).batchRequests
      = reqs + (if paths.length = 0 then 1 else ceilDiv paths.length B) := by
  intro fuel
  induction fuel with
  | zero => intro paths acc reqs pub store h; omega
  | succ fuel ih =>
    intro paths acc reqs pub store h
    simp only [ffcLoop]
    by_cases hrest : (paths.drop B).isEmpty
    · rw [if_pos hrest]
      have hlen : paths.length ≤ B := by
        have hd := List.isEmpty_iff.1 hrest
        have hl := List.length_drop B paths
        rw [hd] at hl
        simp at hl
        omega
      show reqs + 1 = reqs + (if paths.length = 0 then 1 else ceilDiv paths.length B)
      by_cases h0 : paths.length = 0
      · rw [if_pos h0]
      · rw [if_neg h0]
        have h1 := ceilDiv_le_one hB hlen
        have h2 := one_le_ceilDiv hB (by omega : 1 ≤ paths.length)
        omega
    · rw [if_neg hrest]
      have hne : paths.drop B ≠ [] := fun hh => hrest (by simp [hh])
      have hlt : B < paths.length := by
        by_contra hc
        exact hne (List.drop_eq_nil_of_le (by omega))
      have hdl : (paths.drop B).length = paths.length - B := List.length_drop B paths
      rw [ih (paths.drop B) _ _ _ _ (by omega), hdl,
        if_neg (by omega : ¬paths.length - B = 0), if_neg (by omega : ¬paths.length = 0)]
      have h2 := ceilDiv_sub hB hlt
      omega

/-- When every batch succeeds and at least one path is present, the loop's
published progress values are non-decreasing, the last one is 100, and the
loop completes normally. -/
theorem ffcLoop_ok (g : List String → List (Option ContentsItem)) (B M : Nat)
    (hB : 1 ≤ B) (hM : 1 ≤ M) :
    ∀ fuel (paths : List String) acc reqs pub store, paths.length < fuel →
    paths.length ≤ M →
    List.Chain' JsNum.le pub →
    (∀ x, pub.getLast? = some x → JsNum.le x (ceilPct (M - paths.length) M)) →
    List.Chain' JsNum.le
        (ffcLoop (fun l => Except.ok (g l)) B M fuel paths acc reqs pub store).published
      ∧ (ffcLoop (fun l => Except.ok (g l)) B M fuel paths acc reqs pub
          store).published.getLast? = some (JsNum.num 100)
      ∧ ∃ l, (ffcLoop (fun l => Except.ok (g l)) B M fuel paths acc reqs pub
          store).outcome = Except.ok l := by
  intro fuel
  induction fuel with
  | zero => intro paths acc reqs pub store h; omega
  | succ fuel ih =>
    intro paths acc reqs pub store h hle hch hbound
    simp only [ffcLoop]
    by_cases hrest : (paths.drop B).isEmpty
    · rw [if_pos hrest]
      have hlen0 : (paths.drop B).length = 0 := by
        rw [List.isEmpty_iff.1 hrest]; rfl
      rw [hlen0]
      have hp : ceilPct (M - 0) M = JsNum.num 100 := by
        rw [Nat.sub_zero]; exact ceilPct_self hM
      refine ⟨?_, ?_, acc ++ g (paths.take B), rfl⟩
      · rw [List.chain'_append]
        refine ⟨hch, List.chain'_singleton _, ?_⟩
        intro x hx y hy
        simp only [List.head?_cons, Option.mem_def, Option.some.injEq] at hy
        subst hy
        exact JsNum.le_trans (hbound x hx) (ceilPct_mono hM (by omega))
      · rw [List.getLast?_concat, hp]
    · rw [if_neg hrest]
      have hne : paths.drop B ≠ [] := fun hh => hrest (by simp [hh])
      have hlt : B < paths.length := by
        by_contra hc
        exact hne (List.drop_eq_nil_of_le (by omega))
      have hdl : (paths.drop B).length = paths.length - B := List.length_drop B paths
      apply ih
      · omega
      · omega
      · rw [List.chain'_append]
        refine ⟨hch, List.chain'_singleton _, ?_⟩
        intro x hx y hy
        simp only [List.head?_cons, Option.mem_def, Option.some.injEq] at hy
        subst hy
        exact JsNum.le_trans (hbound x hx) (ceilPct_mono hM (by omega))
      · intro x hx
        rw [List.getLast?_concat] at hx
        cases hx
        exact ceilPct_mono hM (le_refl _)

theorem ffcFinish_batchRequests (r : FFCResult) :
    (ffcFinish r).batchRequests = r.batchRequests := by
  unfold ffcFinish
  cases hr : r.outcome <;> rfl

theorem ffcFinish_published (r : FFCResult) : (ffcFinish r).published = r.published := by
  unfold ffcFinish
  cases hr : r.outcome <;> rfl

theorem ffcFinish_outcome (r : FFCResult) : (ffcFinish r).outcome = r.outcome := by
  unfold ffcFinish
  cases hr : r.outcome <;> simp [hr]

theorem ffcFinish_final_ok (r : FFCResult) (l : List (Option ContentsItem))
    (h : r.outcome = Except.ok l) : (ffcFinish r).finalStore = none := by
  unfold ffcFinish
  rw [h]

theorem ffcFinish_final_error (r : FFCResult) (e : Unit)
    (h : r.outcome = Except.error e) : (ffcFinish r).finalStore = r.finalStore := by
  unfold ffcFinish
  rw [h]

/-- Inside the batch loop the progress store always holds a value; only the
code after the loop can reset it to `undefined`. -/
theorem ffcLoop_finalStore_isSome
    (f : List String → Except Unit (List (Option ContentsItem))) (B M : Nat) :
    ∀ fuel (paths : List String) acc reqs pub store,
    ∃ v, (ffcLoop f B M fuel paths acc reqs pub store).finalStore = some v := by
  intro fuel
  induction fuel with
  | zero => intro paths acc reqs pub store; exact ⟨store, rfl⟩
  | succ fuel ih =>
    intro paths acc reqs pub store
    simp only [ffcLoop]
    split
    · exact ⟨store, rfl⟩
    · split
      · exact ⟨_, rfl⟩
      · exact ih _ _ _ _ _

/-- C1 (amended): for a batch limit `B ≥ 1` and a non-empty set of `M`
non-asset paths, `fetchFileContents` issues exactly `⌈M / B⌉` bulk batch
requests, and the progress percentages published after each batch form a
non-decreasing sequence whose last value is 100. (With `M = 0` the code
still issues one bulk request and publishes `NaN`; see the
counterexample.) -/
theorem fetchFileContents_batches_and_progress (settings : Option Nat)
    (g : List String → List (Option ContentsItem)) (files : List FFile)
    (hB : 1 ≤ settings.getD 30) (hM : 1 ≤ (nonAssetPaths files).length) :
    (fetchFileContents (Except.ok settings) (fun l => Except.ok (g l)) files).batchRequests
        = ceilDiv (nonAssetPaths files).length (settings.getD 30)
      ∧ List.Chain' JsNum.le
          (fetchFileContents (Except.ok settings) (fun l => Except.ok (g l)) files).published
      ∧ (fetchFileContents (Except.ok settings) (fun l => Except.ok (g l))
          files).published.getLast? = some (JsNum.num 100) := by
  have hreq := ffcLoop_requests g (settings.getD 30) (nonAssetPaths files).length hB
    ((nonAssetPaths files).length + 1) (nonAssetPaths files) [] 0 [] (JsNum.num 0) (by omega)
  have hok := ffcLoop_ok g (settings.getD 30) (nonAssetPaths files).length hB hM
    ((nonAssetPaths files).length + 1) (nonAssetPaths files) [] 0 [] (JsNum.num 0) (by omega)
    (le_refl _) List.chain'_nil (by intro x hx; simp at hx)
  obtain ⟨hch, hlast, l, hout⟩ := hok
  simp only [fetchFileContents]
  refine ⟨?_, ?_, ?_⟩
  · rw [ffcFinish_batchRequests, hreq, if_neg (by omega)]
    omega
  · rw [ffcFinish_published]
    exact hch
  · rw [ffcFinish_published]
    exact hlast

theorem fetchFileContents_batches_and_progress_witness :
    (fetchFileContents (Except.ok (some 1)) (fun l => Except.ok ((fun _ => []) l))
        [⟨none, "a.md", "x", some 1⟩, ⟨none, "b.md", "y", some 1⟩]).batchRequests
        = ceilDiv (nonAssetPaths
            [⟨none, "a.md", "x", some 1⟩, ⟨none, "b.md", "y", some 1⟩]).length
            ((some 1 : Option Nat).getD 30)
      ∧ List.Chain' JsNum.le
          (fetchFileContents (Except.ok (some 1)) (fun l => Except.ok ((fun _ => []) l))
            [⟨none, "a.md", "x", some 1⟩, ⟨none, "b.md", "y", some 1⟩]).published
      ∧ (fetchFileContents (Except.ok (some 1)) (fun l => Except.ok ((fun _ => []) l))
          [⟨none, "a.md", "x", some 1⟩, ⟨none, "b.md", "y", some 1⟩]).published.getLast?
          = some (JsNum.num 100) :=
  fetchFileContents_batches_and_progress (some 1) (fun _ => [])
    [⟨none, "a.md", "x", some 1⟩, ⟨none, "b.md", "y", some 1⟩] (by decide) (by decide)

/-- C1 counterexample: with an empty non-asset path set (`M = 0`) the
do-while loop still issues one bulk request, not `⌈0 / 30⌉ = 0`. -/
theorem fetchFileContents_empty_counterexample :
    (fetchFileContents (Except.ok (some 30)) (fun _ => Except.ok []) []).batchRequests
      ≠ ceilDiv 0 30 := by decide

/-- C2 (amended): when `fetchFileContents` completes normally the
`dataLoadedProgress` store is reset to `undefined` (`none`); when the
settings request or a batch request throws, the exception propagates and the
store retains its last published value — there is no `try`/`finally` in the
source, so a stale progress value persists on failure. -/
theorem fetchFileContents_finalStore (settingsResult : Except Unit (Option Nat))
    (fb : List String → Except Unit (List (Option ContentsItem))) (files : List FFile) :
    (∀ l, (fetchFileContents settingsResult fb files).outcome = Except.ok l →
      (fetchFileContents settingsResult fb files).finalStore = none)
    ∧ (∀ e, (fetchFileContents settingsResult fb files).outcome = Except.error e →
      ∃ v, (fetchFileContents settingsResult fb files).finalStore = some v) := by
  cases settingsResult with
  | error e =>
    exact ⟨fun l hl => (nomatch hl), fun e' he => ⟨JsNum.num 0, rfl⟩⟩
  | ok settings =>
    simp only [fetchFileContents]
    constructor
    · intro l hl
      rw [ffcFinish_outcome] at hl
      exact ffcFinish_final_ok _ _ hl
    · intro e he
      rw [ffcFinish_outcome] at he
      rw [ffcFinish_final_error _ _ he]
      exact ffcLoop_finalStore_isSome _ _ _ _ _ _ _ _ _

theorem fetchFileContents_finalStore_witness :
    (fetchFileContents (Except.ok (some 30)) (fun _ => Except.ok [])
        [⟨none, "a.md", "x", some 1⟩]).finalStore = none
    ∧ ∃ v, (fetchFileContents (Except.ok (some 30)) (fun _ => Except.error ())
        [⟨none, "a.md", "x", some 1⟩]).finalStore = some v :=
  ⟨(fetchFileContents_finalStore (Except.ok (some 30)) (fun _ => Except.ok [])
      [⟨none, "a.md", "x", some 1⟩]).1 [] rfl,
   (fetchFileContents_finalStore (Except.ok (some 30)) (fun _ => Except.error ())
      [⟨none, "a.md", "x", some 1⟩]).2 () rfl⟩

/-- C2 counterexample: a failing batch request exits `fetchFileContents`
with the progress store still holding a value (here `0`), not reset to
`undefined`. -/
theorem fetchFileContents_stale_counterexample :
    (fetchFileContents (Except.ok (some 30)) (fun _ => Except.error ())
        [⟨none, "a.md", "x", some 1⟩]).finalStore ≠ none := by decide

/-- The standard base64 alphabet. -/
def b64Alphabet : List Char :=
  "ABCDEFGHIJKLMNOPQRSTUVWXYZabcdefghijklmnopqrstuvwxyz0123456789+/".data

/-- Character for a 6-bit value. -/
def sextetChar (n : Nat) : Char := b64Alphabet.getD n '?'

/-- 6-bit value of an alphabet character. -/
def charSextet (c : Char) : Nat := b64Alphabet.indexOf c

/-- Modelled from the spec: `encodeBase64` from `@sveltia/utils/file` (used
by `commitChanges` to encode each change's `data`; the utility itself is not
among the sample sources). Standard base64 with `=` padding, over the text's
UTF-8 byte sequence; text is represented here by those bytes. -/
def encodeBase64 : List Nat → List Char
  | [] => []
  | [a] => [sextetChar (a / 4), sextetChar (a % 4 * 16), '=', '=']
  | [a, b] =>
      [sextetChar (a / 4), sextetChar (a % 4 * 16 + b / 16), sextetChar (b % 16 * 4), '=']
  | a :: b :: c :: rest =>
      sextetChar (a / 4) :: sextetChar (a % 4 * 16 + b / 16) ::
        sextetChar (b % 16 * 4 + c / 64) :: sextetChar (c % 64) :: encodeBase64 rest

/-- Modelled from the spec: `decodeBase64` from `@sveltia/utils/file` (used
by `parseFileContents` on fetched file contents), inverse direction of
`encodeBase64`. -/
def decodeBase64 : List Char → List Nat
  | c1 :: c2 :: c3 :: c4 :: rest =>
      if c3 = '=' then [charSextet c1 * 4 + charSextet c2 / 16]
      else if c4 = '=' then
        [charSextet c1 * 4 + charSextet c2 / 16,
         charSextet c2 % 16 * 16 + charSextet c3 / 4]
      else
        (charSextet c1 * 4 + charSextet c2 / 16) ::
          (charSextet c2 % 16 * 16 + charSextet c3 / 4) ::
          (charSextet c3 % 4 * 64 + charSextet c4) :: decodeBase64 rest
  | _ => []

theorem charSextet_sextetChar : ∀ n < 64, charSextet (sextetChar n) = n := by decide

theorem sextetChar_ne_pad : ∀ n < 64, sextetChar n ≠ '=' := by decide

theorem decodeBase64_encodeBase64 :
    ∀ bytes : List Nat, (∀ x ∈ bytes, x < 256) →
    decodeBase64 (encodeBase64 bytes) = bytes := by
  intro bytes
  induction bytes using encodeBase64.induct with
  | case1 => intro _; rfl
  | case2 a =>
    intro h
    have ha : a < 256 := h a (by simp)
    simp only [encodeBase64, decodeBase64]
    rw [if_pos True.intro]
    rw [charSextet_sextetChar (a / 4) (by omega), charSextet_sextetChar (a % 4 * 16) (by omega)]
    simp only [List.cons.injEq, and_true]
    omega
  | case3 a b =>
    intro h
    have ha : a < 256 := h a (by simp)
    have hb : b < 256 := h b (by simp)
    simp only [encodeBase64, decodeBase64]
    rw [if_neg (sextetChar_ne_pad (b % 16 * 4) (by omega)), if_pos True.intro]
    rw [charSextet_sextetChar (a / 4) (by omega),
      charSextet_sextetChar (a % 4 * 16 + b / 16) (by omega),
      charSextet_sextetChar (b % 16 * 4) (by omega)]
    simp only [List.cons.injEq, and_true]
    constructor <;> omega
  | case4 a b c rest ih =>
    intro h
    have ha : a < 256 := h a (by simp)
    have hb : b < 256 := h b (by simp)
    have hc : c < 256 := h c (by simp)
    simp only [encodeBase64, decodeBase64]
    rw [if_neg (sextetChar_ne_pad (b % 16 * 4 + c / 64) (by omega)),
      if_neg (sextetChar_ne_pad (c % 64) (by omega))]
    rw [charSextet_sextetChar (a / 4) (by omega),
      charSextet_sextetChar (a % 4 * 16 + b / 16) (by omega),
      charSextet_sextetChar (b % 16 * 4 + c / 64) (by omega),
      charSextet_sextetChar (c % 64) (by omega)]
    rw [ih (fun x hx => h x (by simp [hx]))]
    simp only [List.cons.injEq, and_true]
    refine ⟨by omega, by omega, by omega⟩

theorem encodeBase64_ne_nil (bytes : List Nat) (h : bytes ≠ []) :
    encodeBase64 bytes ≠ [] := by
  match bytes with
  | [] => exact absurd rfl h
  | [a] => simp [encodeBase64]
  | [a, b] => simp [encodeBase64]
  | a :: b :: c :: rest => simp [encodeBase64]

/-- A `FileChange` handed to `commitChanges`: `action` is one of `create`,
`update`, `delete`, `move`; `previousPath` is set for moves; `data` is the
file text as UTF-8 bytes (`none` models an absent `data`, defaulted to the
empty string by the source). -/
structure FileChange where
  action : String
  path : String
  previousPath : Option String
  data : Option (List Nat)
deriving DecidableEq, Repr

/-- One element of the `files` array POSTed by `commitChanges` to
`/repos/{owner}/{repo}/contents`. -/
structure CommitFileOp where
  operation : String
  path : String
  content : List Char
  from_path : Option String
deriving DecidableEq, Repr

/-- The per-change projection inside `commitChanges`: a `move` is submitted
as an `update`; content is base64-encoded; `from_path` carries
`previousPath`. -/
def toCommitFileOp (c : FileChange) : CommitFileOp :=
  { operation := if c.action = "move" then "update" else c.action,
    path := c.path,
    content := encodeBase64 (c.data.getD []),
    from_path := c.previousPath }

/-- The `files` array submitted by `commitChanges`. -/
def commitFiles (changes : List FileChange) : List CommitFileOp :=
  changes.map toCommitFileOp

/-- C7: every `move` change with `path = p` and `previousPath = q` is
submitted to the provider as an `update` operation at `p` carrying
`from_path = q`. -/
theorem commitChanges_move_as_update (changes : List FileChange) (c : FileChange)
    (hc : c ∈ changes) (hm : c.action = "move") :
    toCommitFileOp c ∈ commitFiles changes
      ∧ (toCommitFileOp c).operation = "update"
      ∧ (toCommitFileOp c).path = c.path
      ∧ (toCommitFileOp c).from_path = c.previousPath := by
  refine ⟨List.mem_map_of_mem _ hc, ?_, rfl, rfl⟩
  simp [toCommitFileOp, hm]

theorem commitChanges_move_as_update_witness :
    toCommitFileOp ⟨"move", "/b.md", some "/a.md", none⟩
        ∈ commitFiles [⟨"move", "/b.md", some "/a.md", none⟩]
      ∧ (toCommitFileOp ⟨"move", "/b.md", some "/a.md", none⟩).operation = "update"
      ∧ (toCommitFileOp ⟨"move", "/b.md", some "/a.md", none⟩).path = "/b.md"
      ∧ (toCommitFileOp ⟨"move", "/b.md", some "/a.md", none⟩).from_path = some "/a.md" :=
  commitChanges_move_as_update [⟨"move", "/b.md", some "/a.md", none⟩]
    ⟨"move", "/b.md", some "/a.md", none⟩ (by simp) rfl

/-- The data record built by `parseFileContents` for one file (commit
metadata is omitted by the source, so `meta` is not modelled). -/
structure FileData where
  sha : String
  size : Nat
  text : List Nat
deriving DecidableEq, Repr

/-- The per-file decoding in `parseFileContents`: decode base64 when the
item has non-empty content (JavaScript truthiness) and the encoding tag is
`'base64'`; otherwise the text is empty (defensive decoding). -/
def parsedText (item : Option ContentsItem) : List Nat :=
  match item with
  | none => []
  | some it =>
    match it.content with
    | none => []
    | some c => if c ≠ [] ∧ it.encoding = some "base64" then decodeBase64 c else []

/-- `parseFileContents`: pair the fetched file list with the bulk results by
index and build the path → data association list. -/
def parseFileContents (fetchingFiles : List FFile)
    (results : List (Option ContentsItem)) : List (String × FileData) :=
  fetchingFiles.enum.map fun pair =>
    (pair.2.path,
      { sha := pair.2.sha, size := pair.2.size.getD 0,
        text := parsedText (results.getD pair.1 none) })

theorem parseFileContents_singleton (f : FFile) (res : List (Option ContentsItem)) :
    parseFileContents [f] res
      = [(f.path, ⟨f.sha, f.size.getD 0, parsedText (res.getD 0 none)⟩)] := rfl

theorem parsedText_base64 (E : List Char) (hne : E ≠ []) :
    parsedText (some ⟨some E, some "base64"⟩) = decodeBase64 E := by
  simp only [parsedText]
  rw [if_pos ⟨hne, True.intro⟩]

/-- C9: base64-encoding a file's text into the commit payload
(`toCommitFileOp`, as in `commitChanges`) and decoding fetched base64
content back to text (`parseFileContents`) are mutual inverses for every
UTF-8 text (represented by its bytes), including the empty text. -/
theorem commit_parse_roundtrip (data : List Nat) (h : ∀ x ∈ data, x < 256)
    (f : FFile) (a p : String) (q : Option String) :
    parseFileContents [f]
        [some ⟨some ((toCommitFileOp ⟨a, p, q, some data⟩).content), some "base64"⟩]
      = [(f.path, { sha := f.sha, size := f.size.getD 0, text := data })] := by
  rw [parseFileContents_singleton]
  by_cases hd : data = []
  · subst hd
    simp [toCommitFileOp, parsedText, encodeBase64]
  · have h1 : ([some (⟨some ((toCommitFileOp ⟨a, p, q, some data⟩).content),
        some "base64"⟩ : ContentsItem)] : List (Option ContentsItem)).getD 0 none
        = some ⟨some (encodeBase64 data), some "base64"⟩ := rfl
    rw [h1, parsedText_base64 _ (encodeBase64_ne_nil data hd),
      decodeBase64_encodeBase64 data h]

theorem commit_parse_roundtrip_witness :
    parseFileContents [⟨none, "posts/a.md", "sha1", some 5⟩]
        [some ⟨some ((toCommitFileOp ⟨"update", "posts/a.md", none,
            some [72, 101, 108, 108, 111]⟩).content), some "base64"⟩]
      = [("posts/a.md", { sha := "sha1", size := 5, text := [72, 101, 108, 108, 111] })] :=
  commit_parse_roundtrip [72, 101, 108, 108, 111] (by decide)
    ⟨none, "posts/a.md", "sha1", some 5⟩ "update" "posts/a.md" none

/-- `pat` matches at the head of the second list. -/
def headMatches : List Char → List Char → Bool
  | [], _ => true
  | _ :: _, [] => false
  | p :: ps, c :: cs => p == c && headMatches ps cs

/-- `pat` occurs somewhere in the list. -/
def containsAux (pat : List Char) : List Char → Bool
  | [] => pat.isEmpty
  | c :: cs => headMatches pat (c :: cs) || containsAux pat cs

/-- JavaScript `String.includes`. -/
def containsSub (s pat : String) : Bool := containsAux pat.data s.data

/-- Numeric value of a digit sequence. -/
def digitsVal (l : List Char) : Nat := l.foldl (fun acc c => acc * 10 + (c.toNat - 48)) 0

/-- A finite JavaScript float as parsed from a version string: the value
`(if neg then -1 else 1) * mant / den`, with `den` a power of ten. -/
structure JsFloat where
  neg : Bool
  mant : Nat
  den : Nat
deriving DecidableEq, Repr

/-- Sign-stripped body of `jsParseFloat`. -/
def jsParseFloatBody (neg : Bool) (l : List Char) : Option JsFloat :=
  let intDigits := l.takeWhile Char.isDigit
  let rest := l.dropWhile Char.isDigit
  let fracDigits :=
    match rest with
    | '.' :: r => r.takeWhile Char.isDigit
    | _ => []
  if intDigits.isEmpty && fracDigits.isEmpty then none
  else some ⟨neg, digitsVal intDigits * 10 ^ fracDigits.length + digitsVal fracDigits,
    10 ^ fracDigits.length⟩

/-- Modelled from the environment: `Number.parseFloat` restricted to the
shapes occurring in version strings — optional sign, integer digits,
optional `.` and fraction digits, ignoring trailing garbage; `none` models
`NaN`. (Exponent notation is not modelled; version strings never use it.) -/
def jsParseFloat (s : String) : Option JsFloat :=
  match s.data with
  | '-' :: rest => jsParseFloatBody true rest
  | '+' :: rest => jsParseFloatBody false rest
  | l => jsParseFloatBody false l

/-- `MIN_GITEA_VERSION = 1.24` as the exact rational 124/100. -/
def MIN_GITEA_VERSION_NUM : Nat := 124

def MIN_GITEA_VERSION_DEN : Nat := 100

/-- `Number.parseFloat(version) < MIN_GITEA_VERSION`: false when the left
side is `NaN` (JavaScript comparisons with `NaN` are false); otherwise an
exact rational comparison by cross-multiplication. -/
def belowMinGiteaVersion (x : Option JsFloat) : Bool :=
  match x with
  | none => false
  | some f =>
    if f.neg then true
    else decide (f.mant * MIN_GITEA_VERSION_DEN < MIN_GITEA_VERSION_NUM * f.den)

/-- The error categories thrown by the Gitea backend. Each corresponds to a
distinct `Error` in the source, distinguished there by message/cause. -/
inductive GiteaErr where
  | apiError
  | unsupportedForgejo
  | unsupportedGitea
  | notCollaborator (repo : String)
  | repoCheckFailed (repo : String)
  | branchResolveFailed (repo : String)
  | branchNotFound (repo branch : String)
deriving DecidableEq, Repr

/-- `checkGiteaVersion`: fetch `/version`; a version string containing
`+gitea-` means the server is a Forgejo fork and is rejected outright;
otherwise the parsed numeric prefix must not be below
`MIN_GITEA_VERSION`. -/
def checkGiteaVersion (versionResult : Except Unit String) : Except GiteaErr Unit :=
  match versionResult with
  | Except.error _ => Except.error GiteaErr.apiError
  | Except.ok version =>
    if containsSub version "+gitea-" then Except.error GiteaErr.unsupportedForgejo
    else if belowMinGiteaVersion (jsParseFloat version) then
      Except.error GiteaErr.unsupportedGitea
    else Except.ok ()

/-- The `/repos/{owner}/{repo}` response fields the backend reads:
`permissions.pull` (with `none` for an absent `permissions` object) and
`default_branch`. -/
structure RepoResp where
  permissionsPull : Option Bool
  defaultBranch : Option String
deriving DecidableEq, Repr

/-- The kinds of API requests the fetch flow can issue. -/
inductive Req where
  | version
  | repoInfo
  | branchInfo
  | treePage (page : Nat)
  | settingsApi
  | contentsBatch
deriving DecidableEq, Repr

/-- `checkRepositoryAccess`: resolve (and cache) the repository info, then
require `permissions?.pull` to be `true`. The inner access-denied error is
rethrown as-is by the `catch` (matched on its message); every other failure
becomes the not-found category (`repository_not_found` cause). Returns the
outcome, the updated cache, and the requests issued. -/
def checkRepositoryAccess (repoInfoResult : Except Unit RepoResp) (repo : String)
    (cache : Option RepoResp) : Except GiteaErr Unit × Option RepoResp × List Req :=
  match cache with
  | some resp =>
      (if resp.permissionsPull = some true then Except.ok ()
       else Except.error (GiteaErr.notCollaborator repo), some resp, [])
  | none =>
      match repoInfoResult with
      | Except.error _ => (Except.error (GiteaErr.repoCheckFailed repo), none, [Req.repoInfo])
      | Except.ok resp =>
          (if resp.permissionsPull = some true then Except.ok ()
           else Except.error (GiteaErr.notCollaborator repo), some resp, [Req.repoInfo])

/-- `fetchDefaultBranchName`: resolve (and cache) the repository info and
read `default_branch`. A missing or empty branch throws inside the `try`,
and the `catch` converts every failure — including that one — into the
branch-resolution error (cause `repository_not_found`). The branch
assignment onto the repository singleton is not modelled (no claim depends
on it). -/
def fetchDefaultBranchName (repoInfoResult : Except Unit RepoResp) (repo : String)
    (cache : Option RepoResp) : Except GiteaErr String × Option RepoResp × List Req :=
  match cache with
  | some resp =>
      (match resp.defaultBranch with
       | some b =>
           if b ≠ "" then Except.ok b else Except.error (GiteaErr.branchResolveFailed repo)
       | none => Except.error (GiteaErr.branchResolveFailed repo),
       some resp, [])
  | none =>
      match repoInfoResult with
      | Except.error _ =>
          (Except.error (GiteaErr.branchResolveFailed repo), none, [Req.repoInfo])
      | Except.ok resp =>
          (match resp.defaultBranch with
           | some b =>
               if b ≠ "" then Except.ok b
               else Except.error (GiteaErr.branchResolveFailed repo)
           | none => Except.error (GiteaErr.branchResolveFailed repo),
           some resp, [Req.repoInfo])

/-- `fetchLastCommit`: fetch the branch info; any failure becomes the
branch-not-found error. -/
def fetchLastCommit (commitResult : Except Unit (String × String)) (repo branch : String) :
    Except GiteaErr (String × String) × List Req :=
  match commitResult with
  | Except.error _ => (Except.error (GiteaErr.branchNotFound repo branch), [Req.branchInfo])
  | Except.ok hm => (Except.ok hm, [Req.branchInfo])

/-- One entry of the Git tree response (`PartialGitEntry`). -/
structure GitEntry where
  type : String
  path : String
  sha : String
  size : Nat
deriving DecidableEq, Repr

/-- One page of the recursive tree listing: entries plus the `truncated`
continuation flag. -/
structure TreePage where
  tree : List GitEntry
  truncated : Bool
deriving DecidableEq, Repr

/-- `BaseFileListItemProps` as produced by `fetchFileList`. -/
structure FileItem where
  path : String
  sha : String
  size : Nat
  name : String
deriving DecidableEq, Repr

/-- `getPathInfo(path).basename`: the part of the path after the last
slash. -/
def basename (p : String) : String :=
  String.mk ((p.data.reverse.takeWhile (fun c => c != '/')).reverse)

/-- The projection applied to each blob entry by `fetchFileList`. -/
def toFileItem (e : GitEntry) : FileItem :=
  ⟨e.path, e.sha, e.size, basename e.path⟩

/-- The page loop of `fetchFileList`: starting at page 1, request pages and
accumulate `result.tree` until a page comes back with `truncated = false`.
`fuel` bounds the recursion; theorems supply enough fuel. Returns the
accumulated raw entries (or the propagated exception) and the number of
page requests issued. -/
def fflLoop (tp : Nat → Except Unit TreePage) :
    Nat → Nat → List GitEntry → Nat → Except Unit (List GitEntry) × Nat
  | 0, _page, _acc, reqs => (Except.error (), reqs)
  | fuel + 1, page, acc, reqs =>
    match tp page with
    | Except.error e => (Except.error e, reqs + 1)
    | Except.ok res =>
      if res.truncated then fflLoop tp fuel (page + 1) (acc ++ res.tree) (reqs + 1)
      else (Except.ok (acc ++ res.tree), reqs + 1)

/-- `fetchFileList` from `gitea.js`: loop over tree pages, then keep only
blob-type entries and project them to `{path, sha, size, name}`. -/
def fetchFileList (tp : Nat → Except Unit TreePage) (fuel : Nat) :
    Except Unit (List FileItem) × Nat :=
  match fflLoop tp fuel 1 [] 0 with
  | (Except.ok entries, reqs) =>
      (Except.ok ((entries.filter (fun e => e.type == "blob")).map toFileItem), reqs)
  | (Except.error e, reqs) => (Except.error e, reqs)

/-- A provider serving a fixed tree in pages of `P` entries: page `q`
(1-based) holds the entries in `[(q-1)·P, q·P)` and `truncated` signals
that more pages remain. -/
def chunkPages (tree : List GitEntry) (P q : Nat) : Except Unit TreePage :=
  Except.ok
    { tree := (tree.drop ((q - 1) * P)).take P,
      truncated := decide (q * P < tree.length) }

/-- Characterization of the page loop over a chunked tree: starting from
0-based page index `q` (page number `q + 1`) with entries before `q·P`
already consumed, the loop returns the rest of the tree and issues
`⌈(N - q·P) / P⌉` further requests. -/
theorem fflLoop_chunk (tree : List GitEntry) (P : Nat) (hP : 1 ≤ P) :
    ∀ fuel q (acc : List GitEntry) reqs, q * P < tree.length →
    tree.length - q * P ≤ fuel * P →
    fflLoop (chunkPages tree P) fuel (q + 1) acc reqs
      = (Except.ok (acc ++ tree.drop (q * P)),
         reqs + ceilDiv (tree.length - q * P) P) := by
  intro fuel
  induction fuel with
  | zero =>
    intro q acc reqs hq hf
    simp only [Nat.zero_mul] at hf
    omega
  | succ fuel ih =>
    intro q acc reqs hq hf
    simp only [fflLoop, chunkPages, Nat.add_sub_cancel]
    have hmul : (q + 1) * P = q * P + P := Nat.succ_mul q P
    by_cases ht : (q + 1) * P < tree.length
    · rw [if_pos (decide_eq_true ht)]
      have hfuel : tree.length - (q + 1) * P ≤ fuel * P := by
        have hsm : (fuel + 1) * P = fuel * P + P := Nat.succ_mul fuel P
        omega
      rw [ih (q + 1) _ _ ht hfuel]
      have hlist : (tree.drop (q * P)).take P ++ tree.drop ((q + 1) * P)
          = tree.drop (q * P) := by
        rw [hmul, ← List.drop_drop, List.take_append_drop]
      have hcount : ceilDiv (tree.length - q * P) P
          = ceilDiv (tree.length - (q + 1) * P) P + 1 := by
        have := ceilDiv_sub hP (show P < tree.length - q * P by omega)
        have h2 : tree.length - (q + 1) * P = tree.length - q * P - P := by omega
        rw [h2]
        exact this
      rw [List.append_assoc, hlist, hcount]
      simp only [Prod.mk.injEq]
      exact ⟨trivial, by omega⟩
    · rw [if_neg (by simp [decide_eq_false ht])]
      have hk : tree.length - q * P ≤ P := by omega
      have htake : (tree.drop (q * P)).take P = tree.drop (q * P) :=
        List.take_of_length_le (by rw [List.length_drop]; omega)
      have hcount : ceilDiv (tree.length - q * P) P = 1 := by
        have h1 := ceilDiv_le_one hP hk
        have h2 := one_le_ceilDiv hP (show 1 ≤ tree.length - q * P by omega)
        omega
      rw [htake, hcount]

/-- C4 (amended): for a source tree of `N ≥ 1` entries served in pages of
`P ≥ 1` entries, `fetchFileList` issues exactly `⌈N / P⌉` page requests and
returns the blob-type entries of the tree in tree order (hence equal as a
set), projected to `{path, sha, size, name}`; when every entry is a blob
that is exactly `N` entries. (With `N = 0` the loop still issues one page
request; see the counterexample.) -/
theorem fetchFileList_pages_and_entries (tree : List GitEntry) (P : Nat)
    (hP : 1 ≤ P) (hN : 1 ≤ tree.length) :
    (fetchFileList (chunkPages tree P) (tree.length + 1)).2 = ceilDiv tree.length P
      ∧ (fetchFileList (chunkPages tree P) (tree.length + 1)).1
        = Except.ok ((tree.filter (fun e => e.type == "blob")).map toFileItem)
      ∧ ((∀ e ∈ tree, e.type = "blob") →
          ∀ l, (fetchFileList (chunkPages tree P) (tree.length + 1)).1 = Except.ok l →
            l.length = tree.length) := by
  have hloop := fflLoop_chunk tree P hP (tree.length + 1) 0 [] 0
    (by simpa using hN)
    (by
      have : (tree.length + 1) * 1 ≤ (tree.length + 1) * P := Nat.mul_le_mul_left _ hP
      omega)
  simp only [Nat.zero_mul, List.drop_zero, List.nil_append, Nat.zero_add, Nat.sub_zero]
    at hloop
  simp only [fetchFileList, hloop]
  refine ⟨trivial, trivial, ?_⟩
  intro hall l hl
  have hfilter : tree.filter (fun e => e.type == "blob") = tree :=
    List.filter_eq_self.2 (fun a ha => by simp [hall a ha])
  simp only [Except.ok.injEq] at hl
  rw [← hl, List.length_map, hfilter]

theorem fetchFileList_pages_and_entries_witness :
    (fetchFileList
        (chunkPages [⟨"blob", "a.md", "s1", 1⟩, ⟨"tree", "d", "s2", 0⟩,
          ⟨"blob", "d/b.md", "s3", 2⟩] 2) 4).2 = ceilDiv 3 2
      ∧ (fetchFileList
          (chunkPages [⟨"blob", "a.md", "s1", 1⟩, ⟨"tree", "d", "s2", 0⟩,
            ⟨"blob", "d/b.md", "s3", 2⟩] 2) 4).1
        = Except.ok ((([⟨"blob", "a.md", "s1", 1⟩, ⟨"tree", "d", "s2", 0⟩,
            ⟨"blob", "d/b.md", "s3", 2⟩] : List GitEntry).filter
              (fun e => e.type == "blob")).map toFileItem)
      ∧ ((∀ e ∈ ([⟨"blob", "a.md", "s1", 1⟩, ⟨"tree", "d", "s2", 0⟩,
            ⟨"blob", "d/b.md", "s3", 2⟩] : List GitEntry), e.type = "blob") →
          ∀ l, (fetchFileList
              (chunkPages [⟨"blob", "a.md", "s1", 1⟩, ⟨"tree", "d", "s2", 0⟩,
                ⟨"blob", "d/b.md", "s3", 2⟩] 2) 4).1 = Except.ok l →
            l.length = 3) :=
  fetchFileList_pages_and_entries
    [⟨"blob", "a.md", "s1", 1⟩, ⟨"tree", "d", "s2", 0⟩, ⟨"blob", "d/b.md", "s3", 2⟩] 2
    (by decide) (by decide)

/-- C4 counterexample: with an empty tree (`N = 0`) the listing loop still
issues one page request, not `⌈0 / 30⌉ = 0`. -/
theorem fetchFileList_empty_counterexample :
    (fetchFileList (chunkPages [] 30) 1).2 ≠ ceilDiv 0 30 := by decide

/-- Environment of one `fetchFiles` run: the responses the server gives to
each endpoint. -/
structure GiteaEnv where
  versionResult : Except Unit String
  repoInfoResult : Except Unit RepoResp
  commitResult : Except Unit (String × String)
  treePage : Nat → Except Unit TreePage
  settingsResult : Except Unit (Option Nat)
  fetchBatch : List String → Except Unit (List (Option ContentsItem))

/-- Modelled from the spec: `fetchAndParseFiles` (from
`$lib/services/backends/shared/fetch`, not among the sample sources):
resolve the default branch when not explicitly configured, fetch the last
commit, retrieve the full file list (the paginated tree requests), then
bulk-fetch contents; caching the parsed entries is out of scope. Returns
the outcome, the requests issued, and the repository-response cache. -/
def fetchAndParseFiles (env : GiteaEnv) (repo : String) (branchCfg : Option String)
    (fuel : Nat) (cache : Option RepoResp) :
    Except GiteaErr Unit × List Req × Option RepoResp :=
  match (match branchCfg with
         | some b =>
             if b ≠ "" then (Except.ok b, cache, ([] : List Req))
             else fetchDefaultBranchName env.repoInfoResult repo cache
         | none => fetchDefaultBranchName env.repoInfoResult repo cache) with
  | (Except.error e, cache2, reqs1) => (Except.error e, reqs1, cache2)
  | (Except.ok branch, cache2, reqs1) =>
    match fetchLastCommit env.commitResult repo branch with
    | (Except.error e, reqs2) => (Except.error e, reqs1 ++ reqs2, cache2)
    | (Except.ok _hash, reqs2) =>
      match fetchFileList env.treePage fuel with
      | (Except.error _, pageCount) =>
          (Except.error GiteaErr.apiError,
           reqs1 ++ reqs2 ++ (List.range pageCount).map (fun i => Req.treePage (i + 1)),
           cache2)
      | (Except.ok files, pageCount) =>
          match fetchFileContents env.settingsResult env.fetchBatch
            (files.map (fun fi => ⟨none, fi.path, fi.sha, some fi.size⟩)) with
          | r =>
            ((match r.outcome with
              | Except.ok _ => Except.ok ()
              | Except.error _ => Except.error GiteaErr.apiError),
             reqs1 ++ reqs2 ++ (List.range pageCount).map (fun i => Req.treePage (i + 1))
               ++ Req.settingsApi
                 :: (List.range r.batchRequests).map (fun _ => Req.contentsBatch),
             cache2)

/-- `fetchFiles` from `gitea.js`: check the Gitea version, check repository
access, then run the shared fetch-and-parse pipeline. Returns the outcome,
the ordered request log, and the repository-response cache. -/
def fetchFiles (env : GiteaEnv) (repo : String) (branchCfg : Option String) (fuel : Nat)
    (cache : Option RepoResp) : Except GiteaErr Unit × List Req × Option RepoResp :=
  match checkGiteaVersion env.versionResult with
  | Except.error e => (Except.error e, [Req.version], cache)
  | Except.ok _ =>
    match checkRepositoryAccess env.repoInfoResult repo cache with
    | (Except.error e, cache2, reqs1) => (Except.error e, Req.version :: reqs1, cache2)
    | (Except.ok _, cache2, reqs1) =>
        match fetchAndParseFiles env repo branchCfg fuel cache2 with
        | (r, reqs2, cache3) => (r, Req.version :: reqs1 ++ reqs2, cache3)

/-- C5: a version string containing `+gitea-` is detected as a Forgejo fork
and rejected with the fork-specific error by `checkGiteaVersion`, and hence
`fetchFiles` (used by both sign-in-then-fetch flows) rejects with it too —
whatever the numeric prefix of the string parses to. -/
theorem forgejo_always_rejected (v : String) (hv : containsSub v "+gitea-" = true)
    (env : GiteaEnv) (repo : String) (bc : Option String) (fuel : Nat)
    (cache : Option RepoResp) (henv : env.versionResult = Except.ok v) :
    checkGiteaVersion (Except.ok v) = Except.error GiteaErr.unsupportedForgejo
      ∧ (fetchFiles env repo bc fuel cache).1 = Except.error GiteaErr.unsupportedForgejo := by
  have hc : checkGiteaVersion (Except.ok v) = Except.error GiteaErr.unsupportedForgejo := by
    simp only [checkGiteaVersion]
    rw [if_pos hv]
  refine ⟨hc, ?_⟩
  simp only [fetchFiles, henv, hc]

/-- C5 witness, at the Forgejo-shaped version string from the source's own
comment, whose numeric prefix parses to 11 ≥ 1.24 — showing the fork error
wins even for a large numeric prefix. -/
theorem forgejo_always_rejected_witness :
    (checkGiteaVersion (Except.ok "11.0.1-46-17b3302+gitea-1.22.0")
        = Except.error GiteaErr.unsupportedForgejo
      ∧ (fetchFiles
          ⟨Except.ok "11.0.1-46-17b3302+gitea-1.22.0", Except.error (), Except.error (),
            fun _ => Except.error (), Except.error (), fun _ => Except.error ()⟩
          "repo" none 1 none).1 = Except.error GiteaErr.unsupportedForgejo)
      ∧ belowMinGiteaVersion (jsParseFloat "11.0.1-46-17b3302+gitea-1.22.0") = false :=
  ⟨forgejo_always_rejected "11.0.1-46-17b3302+gitea-1.22.0" (by decide)
      ⟨Except.ok "11.0.1-46-17b3302+gitea-1.22.0", Except.error (), Except.error (),
        fun _ => Except.error (), Except.error (), fun _ => Except.error ()⟩
      "repo" none 1 none rfl,
   by decide⟩

/-- C3: when the repository response carries `permissions.pull = false` (and
the version check passes), `fetchFiles` rejects with the access-denied
category — a constructor distinct from the not-found category — and the
request log contains no file-listing (tree) request: the rejection happens
before any listing is attempted. -/
theorem fetchFiles_access_denied_before_listing (env : GiteaEnv) (repo : String)
    (bc : Option String) (fuel : Nat) (v : String) (resp : RepoResp)
    (hver : env.versionResult = Except.ok v)
    (hok : checkGiteaVersion (Except.ok v) = Except.ok ())
    (hrepo : env.repoInfoResult = Except.ok resp)
    (hpull : resp.permissionsPull = some false) :
    (fetchFiles env repo bc fuel none).1 = Except.error (GiteaErr.notCollaborator repo)
      ∧ (∀ p, Req.treePage p ∉ (fetchFiles env repo bc fuel none).2.1)
      ∧ GiteaErr.notCollaborator repo ≠ GiteaErr.repoCheckFailed repo := by
  have hacc : checkRepositoryAccess env.repoInfoResult repo none
      = (Except.error (GiteaErr.notCollaborator repo), some resp, [Req.repoInfo]) := by
    simp only [checkRepositoryAccess, hrepo, hpull]
    rw [if_neg (by simp)]
  have hff : fetchFiles env repo bc fuel none
      = (Except.error (GiteaErr.notCollaborator repo),
         [Req.version, Req.repoInfo], some resp) := by
    simp only [fetchFiles, hver, hok, hacc]
  rw [hff]
  refine ⟨rfl, ?_, by simp⟩
  intro p hp
  simp at hp

theorem fetchFiles_access_denied_before_listing_witness :
    (fetchFiles
        ⟨Except.ok "1.24.0", Except.ok ⟨some false, some "main"⟩, Except.error (),
          fun _ => Except.error (), Except.error (), fun _ => Except.error ()⟩
        "repo" none 1 none).1 = Except.error (GiteaErr.notCollaborator "repo")
      ∧ (∀ p, Req.treePage p ∉ (fetchFiles
          ⟨Except.ok "1.24.0", Except.ok ⟨some false, some "main"⟩, Except.error (),
            fun _ => Except.error (), Except.error (), fun _ => Except.error ()⟩
          "repo" none 1 none).2.1)
      ∧ GiteaErr.notCollaborator "repo" ≠ GiteaErr.repoCheckFailed "repo" :=
  fetchFiles_access_denied_before_listing
    ⟨Except.ok "1.24.0", Except.ok ⟨some false, some "main"⟩, Except.error (),
      fun _ => Except.error (), Except.error (), fun _ => Except.error ()⟩
    "repo" none 1 "1.24.0" ⟨some false, some "main"⟩ rfl rfl rfl rfl

/-- `stripSlashes` from `@sveltia/utils/string`: remove leading and
trailing slashes. -/
def stripSlashes (s : String) : String :=
  String.mk (((s.data.dropWhile (fun c => c == '/')).reverse.dropWhile
    (fun c => c == '/')).reverse)

/-- Split at the first occurrence of `pat`: the parts before and after. -/
def splitAtSub (pat : List Char) : List Char → Option (List Char × List Char)
  | [] => if pat.isEmpty then some ([], []) else none
  | c :: cs =>
    if headMatches pat (c :: cs) then some ([], (c :: cs).drop pat.length)
    else
      match splitAtSub pat cs with
      | some (pre, post) => some (c :: pre, post)
      | none => none

/-- Modelled from the environment: `new URL(s).origin` for the absolute
URLs appearing in configuration — the scheme-and-host part, everything
before the first `/`, `?` or `#` after the `://` separator. (An input with
no `://` is returned unchanged; determinism is all the idempotence claim
needs.) -/
def urlOrigin (s : String) : String :=
  match splitAtSub "://".data s.data with
  | none => s
  | some (scheme, rest) =>
      String.mk (scheme ++ "://".data
        ++ rest.takeWhile (fun c => !(c == '/' || c == '?' || c == '#')))

/-- JavaScript `String.replace` with a plain-string pattern: replace the
first occurrence only. -/
def replaceFirst (s pat repl : String) : String :=
  match splitAtSub pat.data s.data with
  | none => s
  | some (pre, post) => String.mk (pre ++ repl.data ++ post)

/-- Template interpolation of a possibly-`undefined` value: JavaScript
stringifies `undefined` as `"undefined"`. -/
def jsStr (x : Option String) : String := x.getD "undefined"

/-- JavaScript truthiness of a possibly-`undefined` string: `undefined` and
the empty string are falsy. -/
def jsTruthy (x : Option String) : Bool :=
  match x with
  | none => false
  | some s => !(s.isEmpty)

/-- The `backend` part of the site configuration read by `init()`. -/
structure BackendCfg where
  name : String
  repo : String
  branch : Option String
  base_url : Option String
  auth_endpoint : Option String
  app_id : Option String
  api_root : Option String
deriving DecidableEq, Repr

/-- `RepositoryInfo`, the per-backend singleton. `repo` is `Option` because
the `[owner, repo]` destructuring leaves it `undefined` when the configured
project path has no slash. -/
structure RepositoryInfo where
  service : String
  label : String
  owner : String
  repo : Option String
  branch : Option String
  baseURL : String
  treeBaseURL : String
  blobBaseURL : String
  databaseName : String
  isSelfHosted : Bool
deriving DecidableEq, Repr

/-- `ApiEndpointConfig`, immutable once `init()` completes. -/
structure ApiEndpointConfig where
  clientId : String
  authURL : String
  tokenURL : String
  origin : String
  restBaseURL : String
deriving DecidableEq, Repr

/-- The two module-level singletons of `gitea.js`. -/
structure GiteaState where
  repository : RepositoryInfo
  apiConfig : ApiEndpointConfig
deriving DecidableEq, Repr

def DEFAULT_API_ROOT : String := "https://gitea.com/api/v1"

def DEFAULT_AUTH_ROOT : String := "https://gitea.com"

def DEFAULT_AUTH_PATH : String := "login/oauth/authorize"

/-- `getBaseURLs`: branch-aware browse/content URL templates; an unset (or
empty, hence falsy) branch yields the plain base URL and an empty blob
URL. -/
def getBaseURLs (baseURL : String) (branch : Option String) : String × String :=
  if jsTruthy branch then
    (baseURL ++ "/src/branch/" ++ jsStr branch, baseURL ++ "/src/branch/" ++ jsStr branch)
  else (baseURL, "")

/-- The `[owner, repo]` destructuring of `projectPath.split('/')`: the
first two segments; `repo` is `undefined` when there is no slash. -/
def splitOwnerRepo (s : String) : String × Option String :=
  match s.split (fun c => c == '/') with
  | [] => ("", none)
  | [o] => (o, none)
  | o :: r :: _ => (o, some r)

/-- `init()` from `gitea.js`: a no-op returning `undefined` unless the
configured backend name is `gitea`; otherwise derive `RepositoryInfo` and
`ApiEndpointConfig` purely from the site configuration and overwrite both
singletons (every field is assigned), returning the repository record. -/
def init (backend : Option BackendCfg) (st : GiteaState) :
    Option RepositoryInfo × GiteaState :=
  match backend with
  | none => (none, st)
  | some cfg =>
    if cfg.name ≠ "gitea" then (none, st)
    else
      let authRoot := cfg.base_url.getD DEFAULT_AUTH_ROOT
      let authPath := cfg.auth_endpoint.getD DEFAULT_AUTH_PATH
      let clientId := cfg.app_id.getD ""
      let restApiRoot := cfg.api_root.getD DEFAULT_API_ROOT
      let authURL := stripSlashes authRoot ++ "/" ++ stripSlashes authPath
      let restApiOrigin := urlOrigin restApiRoot
      let own := splitOwnerRepo cfg.repo
      let baseURL := restApiOrigin ++ "/" ++ own.1 ++ "/" ++ jsStr own.2
      let urls := getBaseURLs baseURL cfg.branch
      let repoInfo : RepositoryInfo :=
        { service := "gitea", label := "Gitea", owner := own.1, repo := own.2,
          branch := cfg.branch, baseURL := baseURL,
          treeBaseURL := urls.1, blobBaseURL := urls.2,
          databaseName := "gitea:" ++ own.1 ++ "/" ++ jsStr own.2,
          isSelfHosted := restApiRoot != DEFAULT_API_ROOT }
      let api : ApiEndpointConfig :=
        { clientId := clientId, authURL := authURL,
          tokenURL := replaceFirst authURL "/authorize" "/access_token",
          origin := restApiOrigin, restBaseURL := restApiOrigin ++ "/api/v1" }
      (some repoInfo, { repository := repoInfo, apiConfig := api })

/-- C8: `init()` is idempotent — called twice with an unchanged site
configuration, the second call returns a repository record equal to the
first and leaves both singletons bit-identical, field for field. -/
theorem init_idempotent (backend : Option BackendCfg) (st : GiteaState) :
    (init backend (init backend st).2).1 = (init backend st).1
      ∧ (init backend (init backend st).2).2 = (init backend st).2 := by
  cases backend with
  | none => exact ⟨rfl, rfl⟩
  | some cfg =>
    simp only [init]
    by_cases h : cfg.name ≠ "gitea"
    · rw [if_pos h, if_pos h]
      exact ⟨rfl, rfl⟩
    · rw [if_neg h, if_neg h]
      exact ⟨rfl, rfl⟩

/-- A thrown JavaScript error as observed by `auth.js`: its `name`, the
message of its `cause` (when present), and the HTTP `status` carried by its
`cause` (attached by the API client on HTTP failures). -/
structure JsError where
  name : String
  causeMessage : Option String
  causeStatus : Option Nat
deriving DecidableEq, Repr

/-- The `signInError` store value. -/
structure SignInError where
  message : String
  canRetry : Bool
deriving DecidableEq, Repr

/-- The user record held by the `user` store (only the fields these flows
touch). -/
structure AuthUser where
  backendName : Option String
  token : Option String
  refreshToken : Option String
deriving DecidableEq, Repr

/-- The reactive stores written by `auth.js`. -/
structure AuthStores where
  backendName : Option String
  user : Option AuthUser
  unauthenticated : Bool
  signInError : SignInError
deriving DecidableEq, Repr

/-- `logError` from `auth.js`: the human-readable message is the cause's
message when present and non-empty (JavaScript `||`), else the localized
`unexpected_error`; `NotFoundError` and `AbortError` override it (the
`AbortError` text depends on whether the selected backend is `local`).
Localized strings are modelled by their keys. The source computes the
overrides in sequence; an error name matches at most one of them, so the
if-chain is equivalent. -/
def logError (backendName : Option String) (ex : JsError) : SignInError :=
  if ex.name = "AbortError" then
    ⟨if backendName = some "local" then "sign_in_error.picker_dismissed"
      else "sign_in_error.authentication_aborted", true⟩
  else if ex.name = "NotFoundError" then ⟨"sign_in_error.not_project_root", true⟩
  else
    ⟨match ex.causeMessage with
      | some m => if m = "" then "unexpected_error" else m
      | none => "unexpected_error", false⟩

/-- Behaviour of a backend during the sign-in flows: the result of
`signIn` (`ok none` models resolving to `undefined`) and of
`fetchFiles`. -/
structure BackendOps where
  signInResult : Except JsError (Option AuthUser)
  fetchFilesResult : Except JsError Unit

/-- Result of a sign-in flow: the final stores plus whether
`backend.fetchFiles()` was invoked. An uncaught exception would surface as
`Except.error` at the flow's type; the flows catch everything, which the
theorems make explicit. -/
structure AuthRun where
  stores : AuthStores
  fetchFilesCalled : Bool
deriving Repr

/-- `signInManually` from `auth.js`: select the backend, return quietly
when it does not exist, try `signIn` (catching any exception into
`unauthenticated`/`signInError`), then on success store the user and try
`fetchFiles`, logging — not rethrowing — its failure. -/
def signInManually (backendFor : String → Option BackendOps) (name : String)
    (s : AuthStores) : Except JsError AuthRun :=
  let s1 : AuthStores := { s with backendName := some name }
  match backendFor name with
  | none => Except.ok ⟨s1, false⟩
  | some ops =>
    match ops.signInResult with
    | Except.error ex =>
        Except.ok
          ⟨{ s1 with unauthenticated := true, signInError := logError (some name) ex },
           false⟩
    | Except.ok none => Except.ok ⟨{ s1 with unauthenticated := true }, false⟩
    | Except.ok (some u) =>
        let s2 : AuthStores := { s1 with unauthenticated := false, user := some u }
        match ops.fetchFilesResult with
        | Except.ok _ => Except.ok ⟨{ s2 with signInError := ⟨"", false⟩ }, true⟩
        | Except.error ex =>
            Except.ok ⟨{ s2 with signInError := logError (some name) ex }, true⟩

/-- The cached user object from local storage (the merge of the three
legacy keys); `keysEmpty` models the `{}` sign-out sentinel. -/
structure CachedUser where
  keysEmpty : Bool
  backendName : Option String
  token : Option String
  refreshToken : Option String
deriving DecidableEq, Repr

/-- Environment of `signInAutomatically`: the cached user (if any), the
site-config backend name, the backend registry, and the QR bootstrap
inputs — the `/signin/<encodedData>` path match and the token extracted by
`atob` + `JSON.parse` (`none` when absent or undecodable). Copying QR
preferences is not modelled (no claim depends on it). -/
structure AutoEnv where
  userCache : Option CachedUser
  siteBackendName : String
  backendFor : String → Option BackendOps
  signinPathData : Option String
  qrDecode : String → Option String

/-- The `_user` selected from the cache: only a cache that names a backend
counts. -/
def cachedUserIfBackend (userCache : Option CachedUser) : Option CachedUser :=
  match userCache with
  | some c => if c.backendName.isSome then some c else none
  | none => none

/-- The backend name to activate: `local` when the cached user used the
`local` or `proxy` backend, else the site-config name. -/
def resolvedBackendName (u0 : Option CachedUser) (siteName : String) : String :=
  match u0 with
  | some c =>
      if c.backendName == some "local" || c.backendName == some "proxy" then "local"
      else siteName
  | none => siteName

/-- QR-code bootstrap: only when no cached user was found and a backend
exists, a decodable `/signin/<data>` path yields a token-only user. -/
def qrBootstrap (u0 : Option CachedUser) (hasBackend : Bool)
    (pathData : Option String) (qrDecode : String → Option String) : Option CachedUser :=
  match u0, hasBackend, pathData with
  | none, true, some data =>
      match qrDecode data with
      | some tok => some ⟨false, none, some tok, none⟩
      | none => none
  | _, _, _ => u0

/-- The `try { await _backend.fetchFiles() } catch` tail of
`signInAutomatically`: success resets `signInError`; a failure whose cause
carries status 401/403/404 is treated as "needs re-authentication"
(`unauthenticated := true`); any other failure is logged. -/
def autoFetchStep (s3 : AuthStores) (r : Except JsError Unit) : Except JsError AuthRun :=
  match r with
  | Except.ok _ => Except.ok ⟨{ s3 with signInError := ⟨"", false⟩ }, true⟩
  | Except.error ex =>
      if ex.causeStatus = some 401 ∨ ex.causeStatus = some 403
          ∨ ex.causeStatus = some 404 then
        Except.ok ⟨{ s3 with unauthenticated := true }, true⟩
      else Except.ok ⟨{ s3 with signInError := logError s3.backendName ex }, true⟩

/-- The `try { _user = await _backend.signIn(...) } catch` step of
`signInAutomatically` and what follows: an exception resets the user and
leaves the flow unauthenticated; `undefined` leaves it unauthenticated;
a user proceeds to `fetchFiles`. -/
def autoSignInStep (s2 : AuthStores) (fetchResult : Except JsError Unit)
    (r : Except JsError (Option AuthUser)) : Except JsError AuthRun :=
  match r with
  | Except.error _ =>
      Except.ok ⟨{ s2 with user := none, unauthenticated := true }, false⟩
  | Except.ok none => Except.ok ⟨{ s2 with unauthenticated := true }, false⟩
  | Except.ok (some u) =>
      autoFetchStep { s2 with unauthenticated := false, user := some u } fetchResult

/-- The tail of `signInAutomatically` after the sign-out-sentinel check:
resolve the backend, maybe QR-bootstrap a user, and — when both a user and
a backend exist — populate the `user` store with the cache and run the
sign-in and fetch steps; otherwise set `unauthenticated` from the user's
absence and stop. -/
def signInAutoSession (env : AutoEnv) (s : AuthStores) (u0 : Option CachedUser) :
    Except JsError AuthRun :=
  let bn := resolvedBackendName u0 env.siteBackendName
  let s1 : AuthStores := { s with backendName := some bn }
  let bk := env.backendFor bn
  let u1 := qrBootstrap u0 bk.isSome env.signinPathData env.qrDecode
  match u1, bk with
  | some c, some ops =>
      autoSignInStep { s1 with user := some ⟨c.backendName, c.token, c.refreshToken⟩ }
        ops.fetchFilesResult ops.signInResult
  | _, _ => Except.ok ⟨{ s1 with unauthenticated := u1.isNone }, false⟩

/-- `signInAutomatically` from `auth.js`: an empty-object user cache (the
sign-out sentinel) aborts immediately; otherwise run the session flow. -/
def signInAutomatically (env : AutoEnv) (s : AuthStores) : Except JsError AuthRun :=
  match env.userCache with
  | some cache =>
      if cache.keysEmpty then Except.ok ⟨s, false⟩
      else signInAutoSession env s (cachedUserIfBackend (some cache))
  | none => signInAutoSession env s none

theorem qrBootstrap_some (c : CachedUser) (b : Bool) (pd : Option String)
    (qd : String → Option String) : qrBootstrap (some c) b pd qd = some c := by
  cases b <;> cases pd <;> rfl

/-- C10: if `backend.signIn` throws during manual sign-in, `signInManually`
catches the exception: it resolves normally (nothing escapes), sets the
`unauthenticated` store to `true`, records the `logError`-derived
human-readable (non-empty) message in the `signInError` store, and never
attempts `fetchFiles`. -/
theorem signInManually_catches (backendFor : String → Option BackendOps)
    (name : String) (s : AuthStores) (ops : BackendOps) (ex : JsError)
    (hb : backendFor name = some ops) (hs : ops.signInResult = Except.error ex) :
    signInManually backendFor name s
      = Except.ok
          ⟨{ s with
              backendName := some name, unauthenticated := true,
              signInError := logError (some name) ex },
           false⟩
      ∧ (logError (some name) ex).message ≠ "" := by
  constructor
  · simp only [signInManually, hb, hs]
  · simp only [logError]
    by_cases hA : ex.name = "AbortError"
    · rw [if_pos hA]
      show (if (some name : Option String) = some "local" then
        "sign_in_error.picker_dismissed" else "sign_in_error.authentication_aborted") ≠ ""
      split
      · decide
      · decide
    · rw [if_neg hA]
      by_cases hN : ex.name = "NotFoundError"
      · rw [if_pos hN]
        decide
      · rw [if_neg hN]
        show (match ex.causeMessage with
          | some m => if m = "" then "unexpected_error" else m
          | none => "unexpected_error") ≠ ""
        cases hm : ex.causeMessage with
        | none => decide
        | some m =>
          show (if m = "" then "unexpected_error" else m) ≠ ""
          by_cases hm0 : m = ""
          · rw [if_pos hm0]
            decide
          · rw [if_neg hm0]
            exact hm0

theorem signInManually_catches_witness :
    signInManually
        (fun n => if n = "gitea" then
          some ⟨Except.error ⟨"Error", some "token revoked", some 401⟩, Except.ok ()⟩
          else none)
        "gitea" ⟨none, none, true, ⟨"", false⟩⟩
      = Except.ok
          ⟨{ (⟨none, none, true, ⟨"", false⟩⟩ : AuthStores) with
             backendName := some "gitea", unauthenticated := true,
             signInError := logError (some "gitea") ⟨"Error", some "token revoked", some 401⟩ },
           false⟩
      ∧ (logError (some "gitea") ⟨"Error", some "token revoked", some 401⟩).message ≠ "" :=
  signInManually_catches
    (fun n => if n = "gitea" then
      some ⟨Except.error ⟨"Error", some "token revoked", some 401⟩, Except.ok ()⟩
      else none)
    "gitea" ⟨none, none, true, ⟨"", false⟩⟩
    ⟨Except.error ⟨"Error", some "token revoked", some 401⟩, Except.ok ()⟩
    ⟨"Error", some "token revoked", some 401⟩ rfl rfl

/-- C6: with a cached user naming a backend that the registry provides, if
the provider rejects the cached token — whether `signIn` itself throws
(e.g. the profile fetch gets a 401) or `signIn` succeeds and the subsequent
`fetchFiles` fails with a 401-status cause — `signInAutomatically`
completes without any exception escaping and leaves the `unauthenticated`
store set to `true`. -/
theorem signInAutomatically_401_soft (env : AutoEnv) (s : AuthStores)
    (c : CachedUser) (ops : BackendOps) (u : AuthUser) (e : JsError)
    (hcache : env.userCache = some c) (hkeys : c.keysEmpty = false)
    (hbn : c.backendName.isSome = true)
    (hlocal : (c.backendName == some "local" || c.backendName == some "proxy") = false)
    (hops : env.backendFor env.siteBackendName = some ops)
    (hcase : ops.signInResult = Except.error e
      ∨ (ops.signInResult = Except.ok (some u) ∧ ops.fetchFilesResult = Except.error e
          ∧ e.causeStatus = some 401)) :
    ∃ run, signInAutomatically env s = Except.ok run
      ∧ run.stores.unauthenticated = true := by
  have hu0 : cachedUserIfBackend (some c) = some c := by
    simp [cachedUserIfBackend, hbn]
  have hbnr : resolvedBackendName (some c) env.siteBackendName = env.siteBackendName := by
    simp only [resolvedBackendName, hlocal]
    rw [if_neg (by simp)]
  simp only [signInAutomatically, hcache, hkeys]
  rw [if_neg (by simp), hu0]
  simp only [signInAutoSession, hbnr, hops,
    qrBootstrap_some c (some ops).isSome env.signinPathData env.qrDecode]
  rcases hcase with hs1 | ⟨hs1, hf, h401⟩
  · rw [hs1]
    exact ⟨_, rfl, rfl⟩
  · rw [hs1, hf]
    simp only [autoSignInStep, autoFetchStep]
    rw [if_pos (Or.inl h401)]
    exact ⟨_, rfl, rfl⟩

theorem signInAutomatically_401_soft_witness :
    ∃ run, signInAutomatically
        ⟨some ⟨false, some "gitea", some "tok", none⟩, "gitea",
         fun n => if n = "gitea" then
           some ⟨Except.ok (some ⟨some "gitea", some "tok", none⟩),
             Except.error ⟨"Error", some "expired", some 401⟩⟩
           else none,
         none, fun _ => none⟩
        ⟨none, none, true, ⟨"", false⟩⟩
      = Except.ok run ∧ run.stores.unauthenticated = true :=
  signInAutomatically_401_soft
    ⟨some ⟨false, some "gitea", some "tok", none⟩, "gitea",
     fun n => if n = "gitea" then
       some ⟨Except.ok (some ⟨some "gitea", some "tok", none⟩),
         Except.error ⟨"Error", some "expired", some 401⟩⟩
       else none,
     none, fun _ => none⟩
    ⟨none, none, true, ⟨"", false⟩⟩
    ⟨false, some "gitea", some "tok", none⟩
    ⟨Except.ok (some ⟨some "gitea", some "tok", none⟩),
      Except.error ⟨"Error", some "expired", some 401⟩⟩
    ⟨some "gitea", some "tok", none⟩
    ⟨"Error", some "expired", some 401⟩
    rfl rfl rfl rfl rfl
    (Or.inr ⟨rfl, rfl, rfl⟩)

end Sveltia
